import Mathlib

/-!
# Verification of the gocli SQL completion engine

A shallow embedding of the context-aware SQL completion engine from
`cmd/pgcli/main.go` (package `completion`): the tokenizer, the clause
classifier `analyzeContext`, table-reference extraction, dot resolution,
the suggestion generators and the fuzzy matcher.  Strings are modelled as
lists of characters (`Str`); Go's byte/rune distinction is immaterial for
the ASCII inputs the engine deals with.  Each definition mirrors the Go
function of the same name.
-/

set_option maxHeartbeats 1000000
set_option maxRecDepth 10000

namespace GocliCompletion

/-- Go strings, modelled as lists of characters. -/
abbrev Str := List Char

/-- Converts a Lean string literal to the `Str` model. -/
def str (s : String) : Str := s.data

/-- Go `strings.ToLower` (ASCII). -/
def lowerStr (s : Str) : Str := s.map Char.toLower

/-- Go `strings.ToUpper` (ASCII). -/
def upperStr (s : Str) : Str := s.map Char.toUpper

/-- Go `strings.TrimSpace`. -/
def trimSpace (s : Str) : Str :=
  ((s.dropWhile Char.isWhitespace).reverse.dropWhile Char.isWhitespace).reverse

/-- Go `SuggestionType` from the completion package. -/
inductive SuggestionType where
  | SuggestKeyword
  | SuggestTable
  | SuggestView
  | SuggestColumn
  | SuggestFunction
  | SuggestSchema
  | SuggestDatabase
  | SuggestDatatype
  | SuggestAlias
  | SuggestSpecial
  | SuggestFavorite
deriving DecidableEq, Repr

/-- Go `Suggestion` struct.  (The Go field `Type` is spelled `type_` because
`Type` is reserved in Lean.) -/
structure Suggestion where
  Text : Str
  DisplayText : Str
  type_ : SuggestionType
  Description : Str
deriving DecidableEq, Repr

/-- Go `SpecialCmd` struct. -/
structure SpecialCmd where
  Name : Str
  Description : Str
deriving DecidableEq, Repr

/-- Go `Metadata` struct: the schema snapshot.  The Go `Columns` map is
modelled as an association list (Go map iteration order is arbitrary;
all claims below are membership statements, insensitive to that order). -/
structure Metadata where
  Tables : List Str
  Views : List Str
  Columns : List (Str × List Str)
  Functions : List Str
  Schemas : List Str
  Databases : List Str
  Datatypes : List Str
  Specials : List SpecialCmd
  Favorites : List Str
deriving DecidableEq, Repr

/-- Go `Completer` struct (the fields read by the completion path). -/
structure Completer where
  meta : Metadata
  smart : Bool
  keywordCasing : Str
deriving DecidableEq, Repr

/-- Go `tableRef` struct. -/
structure TableRef where
  Name : Str
  Alias : Str
deriving DecidableEq, Repr

/-- Go `SQLContext` struct. -/
structure SQLContext where
  InSelect : Bool := false
  InFrom : Bool := false
  InJoin : Bool := false
  InWhere : Bool := false
  InOrderBy : Bool := false
  InGroupBy : Bool := false
  InHaving : Bool := false
  InInsert : Bool := false
  InUpdate : Bool := false
  InSet : Bool := false
  InOn : Bool := false
  InUsing : Bool := false
  InCreate : Bool := false
  InAlter : Bool := false
  InDrop : Bool := false
  AfterDot : Bool := false
  BeforeDot : Str := []
  Tables : List TableRef := []
  IsBackslash : Bool := false
deriving DecidableEq, Repr

/-- The zero value of `SQLContext` (Go `SQLContext{}`). -/
def SQLContext.zero : SQLContext := {}

/-! ## Keyword lists -/

/-- Go `selectKeywords`. -/
def selectKeywords : List Str := List.map str
  ["DISTINCT", "ALL", "AS", "FROM", "WHERE", "GROUP", "BY",
   "HAVING", "ORDER", "LIMIT", "OFFSET", "UNION", "INTERSECT",
   "EXCEPT", "CASE", "WHEN", "THEN", "ELSE", "END", "AND",
   "OR", "NOT", "IN", "EXISTS", "BETWEEN", "LIKE", "ILIKE",
   "IS", "NULL", "TRUE", "FALSE", "ASC", "DESC", "NULLS",
   "FIRST", "LAST", "OVER", "PARTITION", "ROWS", "RANGE",
   "UNBOUNDED", "PRECEDING", "FOLLOWING", "CURRENT", "ROW",
   "FILTER", "WITHIN", "LATERAL", "CROSS", "NATURAL"]

/-- Go `fromKeywords`. -/
def fromKeywords : List Str := List.map str
  ["JOIN", "INNER", "LEFT", "RIGHT", "FULL", "OUTER", "CROSS",
   "NATURAL", "ON", "USING", "WHERE", "GROUP", "BY", "HAVING",
   "ORDER", "LIMIT", "OFFSET", "AS", "UNION", "INTERSECT",
   "EXCEPT"]

/-- Go `whereKeywords`. -/
def whereKeywords : List Str := List.map str
  ["AND", "OR", "NOT", "IN", "EXISTS", "BETWEEN", "LIKE",
   "ILIKE", "IS", "NULL", "TRUE", "FALSE", "ANY", "ALL",
   "SOME", "GROUP", "BY", "HAVING", "ORDER", "LIMIT", "OFFSET"]

/-- Go `ddlKeywords`. -/
def ddlKeywords : List Str := List.map str
  ["TABLE", "INDEX", "VIEW", "MATERIALIZED", "SEQUENCE",
   "SCHEMA", "DATABASE", "FUNCTION", "PROCEDURE", "TRIGGER",
   "TYPE", "DOMAIN", "EXTENSION", "IF", "EXISTS", "NOT",
   "CASCADE", "RESTRICT", "COLUMN", "CONSTRAINT", "PRIMARY",
   "KEY", "UNIQUE", "REFERENCES", "FOREIGN", "CHECK", "DEFAULT"]

/-- Go `allKeywords`. -/
def allKeywords : List Str := List.map str
  ["SELECT", "INSERT", "UPDATE", "DELETE", "CREATE", "ALTER",
   "DROP", "TRUNCATE", "FROM", "WHERE", "JOIN", "INNER", "LEFT",
   "RIGHT", "FULL", "OUTER", "CROSS", "NATURAL", "ON", "USING",
   "GROUP", "BY", "HAVING", "ORDER", "LIMIT", "OFFSET", "AS",
   "DISTINCT", "ALL", "UNION", "INTERSECT", "EXCEPT", "AND",
   "OR", "NOT", "IN", "EXISTS", "BETWEEN", "LIKE", "ILIKE",
   "IS", "NULL", "TRUE", "FALSE", "CASE", "WHEN", "THEN",
   "ELSE", "END", "ASC", "DESC", "NULLS", "FIRST", "LAST",
   "INTO", "VALUES", "SET", "DEFAULT", "RETURNING", "WITH",
   "RECURSIVE", "TABLE", "INDEX", "VIEW", "MATERIALIZED",
   "SEQUENCE", "SCHEMA", "DATABASE", "FUNCTION", "PROCEDURE",
   "TRIGGER", "TYPE", "DOMAIN", "EXTENSION", "IF", "CASCADE",
   "RESTRICT", "COLUMN", "CONSTRAINT", "PRIMARY", "KEY",
   "UNIQUE", "REFERENCES", "FOREIGN", "CHECK", "BEGIN",
   "COMMIT", "ROLLBACK", "SAVEPOINT", "GRANT", "REVOKE",
   "EXPLAIN", "ANALYZE", "VERBOSE", "COSTS", "BUFFERS",
   "FORMAT", "COPY", "TO", "STDIN", "STDOUT", "DELIMITER",
   "CSV", "HEADER", "QUOTE", "ESCAPE", "FORCE", "VACUUM",
   "REINDEX", "CLUSTER", "COMMENT", "OVER", "PARTITION",
   "ROWS", "RANGE", "UNBOUNDED", "PRECEDING", "FOLLOWING",
   "CURRENT", "ROW", "FILTER", "WITHIN", "LATERAL",
   "FETCH", "NEXT", "PRIOR", "ABSOLUTE", "RELATIVE",
   "FORWARD", "BACKWARD", "DECLARE", "CURSOR", "FOR",
   "CLOSE", "MOVE"]

/-! ## Lexer -/

/-- Character class used by `lastWord`'s backward walk
(`unicode.IsLetter(r) || unicode.IsDigit(r) || r == '_' || r == '.' ||
r == '\\' || r == '#'`). -/
def isWordChar (c : Char) : Bool :=
  c.isAlpha || c.isDigit || c = '_' || c = '.' || c = '\\' || c = '#'

/-- Go `lastWord`: extracts the trailing word being typed. -/
def lastWord (text : Str) : Str :=
  match text.getLast? with
  | none => []
  | some c =>
    if c = ' ' || c = '\t' || c = '\n' then []
    else (text.reverse.takeWhile isWordChar).reverse

/-- Emits the in-progress token (uppercased) if non-empty, as in the
`if current.Len() > 0` flushes of `tokenize`. -/
def flushToken (current : Str) (rest : List Str) : List Str :=
  if current = [] then rest else upperStr current :: rest

/-- The loop body of `tokenize`: state is the remaining input, the
in-progress token, and the quote state. -/
def tokenizeAux : List Char → Str → Bool → Char → List Str
  | [], current, _, _ => flushToken current []
  | r :: cs, current, inQuote, quoteChar =>
    if inQuote then
      if r = quoteChar then tokenizeAux cs (current ++ [r]) false quoteChar
      else tokenizeAux cs (current ++ [r]) true quoteChar
    else if r = '\'' || r = '"' then
      tokenizeAux cs (current ++ [r]) true r
    else if r.isWhitespace || r = ',' || r = '(' || r = ')' || r = ';' then
      flushToken current (tokenizeAux cs [] false quoteChar)
    else if r = '=' || r = '<' || r = '>' || r = '!' then
      flushToken current ([r] :: tokenizeAux cs [] false quoteChar)
    else
      tokenizeAux cs (current ++ [r]) inQuote quoteChar

/-- Go `tokenize`: lexes a SQL string into uppercased tokens. -/
def tokenize (sql : Str) : List Str := tokenizeAux sql [] false (Char.ofNat 0)

/-! ## Fuzzy matcher -/

/-- The tier-3 loop of `fuzzyMatch`: greedy in-order character scan
(`j` advances over the input while `i` sweeps the candidate). -/
def subseqStep : Str → Str → Bool
  | [], _ => true
  | _ :: _, [] => false
  | a :: as, b :: bs => if b = a then subseqStep as bs else subseqStep (a :: as) bs

/-- Go `strings.Contains(hay, needle)`: substring test. -/
def containsSub (hay needle : Str) : Bool :=
  hay.tails.any (fun t => needle.isPrefixOf t)

/-- Go `fuzzyMatch`: case-insensitive three-tier match. -/
def fuzzyMatch (input candidate : Str) : Bool :=
  if input = [] then true
  else
    let inputLower := lowerStr input
    let candidateLower := lowerStr candidate
    if inputLower.isPrefixOf candidateLower then true
    else if containsSub candidateLower inputLower then true
    else subseqStep inputLower candidateLower

/-- Tier 3 alone, as described by the claim: the ordered-subsequence
check on the lower-cased strings (empty input matches). -/
def fuzzySubseqOnly (input candidate : Str) : Bool :=
  if input = [] then true else subseqStep (lowerStr input) (lowerStr candidate)

/-! ## Context classifier -/

/-- Go `isKeyword`: membership in `allKeywords` (after uppercasing). -/
def isKeyword (s : Str) : Bool := allKeywords.contains (upperStr s)

/-- Computes the alias of a table reference from the tokens following the
table name, mirroring the `// Check for alias` block of
`extractTableRefs`: `rest2` is the token list starting at index `i+2`. -/
def refAlias (rest2 : List Str) : Str :=
  match rest2 with
  | [] => []
  | next :: rest3 =>
    if next = str "AS" ∧ rest3 ≠ [] then lowerStr (rest3.headD [])
    else if ¬ isKeyword next ∧ next ≠ str "," ∧ next ≠ str "ON" ∧
        next ≠ str "WHERE" ∧ next ≠ str "SET" then
      lowerStr next
    else []

/-- Go `extractTableRefs`: scans every occurrence of FROM/JOIN/UPDATE/INTO
and collects the following table name and optional alias.  The Go loop
advances one token per iteration, so the recursion continues on the token
after the trigger. -/
def extractTableRefs : List Str → List TableRef
  | [] => []
  | tok :: rest =>
    if tok = str "FROM" ∨ tok = str "JOIN" ∨ tok = str "UPDATE" ∨ tok = str "INTO" then
      match rest with
      | [] => []
      | name :: rest2 =>
        if isKeyword name then extractTableRefs rest
        else ⟨lowerStr name, refAlias rest2⟩ :: extractTableRefs rest
    else extractTableRefs rest

/-- Go `resolveTableName`: scans the refs in order; each ref is checked by
alias and then by name. -/
def resolveTableName (aliasName : Str) : List TableRef → Str
  | [] => aliasName
  | ref :: rest =>
    if ref.Alias = aliasName then ref.Name
    else if ref.Name = aliasName then ref.Name
    else resolveTableName aliasName rest

/-- The fifteen clause flags of `SQLContext`, named. -/
inductive Clause where
  | sel | frm | jn | whr | ord | grp | hav | ins | upd | setC | onC | usng | cre | alt | drp
deriving DecidableEq, Repr

/-- Reads the clause flag named `f` from a context. -/
def getFlag (ctx : SQLContext) : Clause → Bool
  | .sel => ctx.InSelect
  | .frm => ctx.InFrom
  | .jn => ctx.InJoin
  | .whr => ctx.InWhere
  | .ord => ctx.InOrderBy
  | .grp => ctx.InGroupBy
  | .hav => ctx.InHaving
  | .ins => ctx.InInsert
  | .upd => ctx.InUpdate
  | .setC => ctx.InSet
  | .onC => ctx.InOn
  | .usng => ctx.InUsing
  | .cre => ctx.InCreate
  | .alt => ctx.InAlter
  | .drp => ctx.InDrop

/-- Sets the clause flag named `f` (the `ctx.InX = true; return ctx`
pattern of the Go switch cases). -/
def setFlag (ctx : SQLContext) : Clause → SQLContext
  | .sel => { ctx with InSelect := true }
  | .frm => { ctx with InFrom := true }
  | .jn => { ctx with InJoin := true }
  | .whr => { ctx with InWhere := true }
  | .ord => { ctx with InOrderBy := true }
  | .grp => { ctx with InGroupBy := true }
  | .hav => { ctx with InHaving := true }
  | .ins => { ctx with InInsert := true }
  | .upd => { ctx with InUpdate := true }
  | .setC => { ctx with InSet := true }
  | .onC => { ctx with InOn := true }
  | .usng => { ctx with InUsing := true }
  | .cre => { ctx with InCreate := true }
  | .alt => { ctx with InAlter := true }
  | .drp => { ctx with InDrop := true }

/-- One step of the backward clause scan: the body of the Go
`switch tok` in `analyzeContext`, with `next` the token at index `i+1`.
A `some` result is a switch case that sets a flag and returns; `none`
means the loop keeps scanning (including the `ORDER`/`GROUP` cases
without a following `BY`, and the join family without a `JOIN`). -/
def clauseHit (tok : Str) (next : Option Str) : Option Clause :=
  if tok = str "SELECT" then some .sel
  else if tok = str "FROM" then some .frm
  else if tok = str "JOIN" ∨ tok = str "INNER" ∨ tok = str "LEFT" ∨
      tok = str "RIGHT" ∨ tok = str "CROSS" ∨ tok = str "FULL" ∨ tok = str "NATURAL" then
    if tok = str "JOIN" ∨ next = some (str "JOIN") then some .jn else none
  else if tok = str "WHERE" then some .whr
  else if tok = str "ORDER" then
    if next = some (str "BY") then some .ord else none
  else if tok = str "GROUP" then
    if next = some (str "BY") then some .grp else none
  else if tok = str "HAVING" then some .hav
  else if tok = str "INSERT" ∨ tok = str "INTO" then some .ins
  else if tok = str "UPDATE" then some .upd
  else if tok = str "SET" then some .setC
  else if tok = str "ON" then some .onC
  else if tok = str "USING" then some .usng
  else if tok = str "CREATE" then some .cre
  else if tok = str "ALTER" then some .alt
  else if tok = str "DROP" then some .drp
  else none

/-- The backward clause scan of `analyzeContext` (the
`for i := len(tokens)-1; i >= 0; i--` loop).  The list argument is the
token list reversed; `next` carries the token at index `i+1`. -/
def scanBack (ctx : SQLContext) : List Str → Option Str → SQLContext
  | [], _ => ctx
  | tok :: rest, next =>
    match clauseHit tok next with
    | some f => setFlag ctx f
    | none => scanBack ctx rest (some tok)

/-- The context `analyzeContext` has built just before its backward
clause scan (dot context and table references filled in, all clause
flags still false); `text` is the already-trimmed text. -/
def preContext (text : Str) : SQLContext :=
  let ctx1 : SQLContext :=
    if text.getLast? = some '.' then
      let parts := (lastWord text.dropLast).splitOn '.'
      { SQLContext.zero with
        AfterDot := true
        BeforeDot := lowerStr (parts.getLastD []) }
    else SQLContext.zero
  { ctx1 with Tables := extractTableRefs (tokenize text) }

/-- Go `analyzeContext`: trims, handles backslash commands, computes the
dot context and the table references, then runs the backward clause
scan. -/
def analyzeContext (text0 : Str) : SQLContext :=
  let text := trimSpace text0
  if text = [] then SQLContext.zero
  else if text.headD (Char.ofNat 0) = '\\' then { SQLContext.zero with IsBackslash := true }
  else scanBack (preContext text) (tokenize text).reverse none

/-- The declarative form of the backward scan described by the spec: the
first token (in backward order) whose clause test fires determines the
active clause, and nothing else is set. -/
def firstHit : List Str → Option Str → Option Clause
  | [], _ => none
  | tok :: rest, next =>
    match clauseHit tok next with
    | some f => some f
    | none => firstHit rest (some tok)

/-- Applies the outcome of the scan to a context. -/
def applyHit (ctx : SQLContext) : Option Clause → SQLContext
  | none => ctx
  | some f => setFlag ctx f

/-- All fifteen clause flags of a context are false. -/
def clauseFlagsFalse (ctx : SQLContext) : Prop :=
  ctx.InSelect = false ∧ ctx.InFrom = false ∧ ctx.InJoin = false ∧
    ctx.InWhere = false ∧ ctx.InOrderBy = false ∧ ctx.InGroupBy = false ∧
    ctx.InHaving = false ∧ ctx.InInsert = false ∧ ctx.InUpdate = false ∧
    ctx.InSet = false ∧ ctx.InOn = false ∧ ctx.InUsing = false ∧
    ctx.InCreate = false ∧ ctx.InAlter = false ∧ ctx.InDrop = false

/-- The number of clause flags that are set. -/
def clauseFlagCount (ctx : SQLContext) : Nat :=
  ctx.InSelect.toNat + ctx.InFrom.toNat + ctx.InJoin.toNat +
    ctx.InWhere.toNat + ctx.InOrderBy.toNat + ctx.InGroupBy.toNat +
    ctx.InHaving.toNat + ctx.InInsert.toNat + ctx.InUpdate.toNat +
    ctx.InSet.toNat + ctx.InOn.toNat + ctx.InUsing.toNat +
    ctx.InCreate.toNat + ctx.InAlter.toNat + ctx.InDrop.toNat

/-! ## Suggestion generators -/

/-- Go `caseKeyword`: applies the keyword-casing policy. -/
def caseKeyword (c : Completer) (kw input : Str) : Str :=
  if c.keywordCasing = str "upper" then upperStr kw
  else if c.keywordCasing = str "lower" then lowerStr kw
  else if input = [] then upperStr kw
  else if input = upperStr input then upperStr kw
  else lowerStr kw

/-- Go `keywordSuggestions`. -/
def keywordSuggestions (c : Completer) (word : Str) (keywords : List Str) : List Suggestion :=
  (keywords.filter (fun kw => fuzzyMatch word kw)).map
    (fun kw => ⟨caseKeyword c kw word, [], .SuggestKeyword, str "keyword"⟩)

/-- Go `tableSuggestions`. -/
def tableSuggestions (c : Completer) (word : Str) : List Suggestion :=
  (c.meta.Tables.filter (fun t => fuzzyMatch word t)).map
    (fun t => ⟨t, [], .SuggestTable, str "table"⟩)

/-- Go `viewSuggestions`. -/
def viewSuggestions (c : Completer) (word : Str) : List Suggestion :=
  (c.meta.Views.filter (fun v => fuzzyMatch word v)).map
    (fun v => ⟨v, [], .SuggestView, str "view"⟩)

/-- Go `functionSuggestions` (note the appended parentheses). -/
def functionSuggestions (c : Completer) (word : Str) : List Suggestion :=
  (c.meta.Functions.filter (fun f => fuzzyMatch word f)).map
    (fun f => ⟨f ++ str "()", [], .SuggestFunction, str "function"⟩)

/-- Go `schemaSuggestions`. -/
def schemaSuggestions (c : Completer) (word : Str) : List Suggestion :=
  (c.meta.Schemas.filter (fun sc => fuzzyMatch word sc)).map
    (fun sc => ⟨sc, [], .SuggestSchema, str "schema"⟩)

/-- Go `datatypeSuggestions`. -/
def datatypeSuggestions (c : Completer) (word : Str) : List Suggestion :=
  (c.meta.Datatypes.filter (fun dt => fuzzyMatch word dt)).map
    (fun dt => ⟨dt, [], .SuggestDatatype, str "type"⟩)

/-- The specials loop that appears in both `contextCompletions` (backslash
branch) and `allCompletions`. -/
def specialSuggestions (c : Completer) (word : Str) : List Suggestion :=
  (c.meta.Specials.filter (fun s => fuzzyMatch word s.Name)).map
    (fun s => ⟨s.Name, [], .SuggestSpecial, s.Description⟩)

/-- The favorites loop of `allCompletions`. -/
def favoriteSuggestions (c : Completer) (word : Str) : List Suggestion :=
  (c.meta.Favorites.filter (fun f => fuzzyMatch word f)).map
    (fun f => ⟨f, [], .SuggestFavorite, []⟩)

/-- The referenced-tables loop of `columnSuggestions` (the body of
`if len(ctx.Tables) > 0`). -/
def refColumnSuggestions (md : Metadata) (refs : List TableRef) (word : Str) : List Suggestion :=
  refs.flatMap (fun tRef =>
    match md.Columns.lookup tRef.Name with
    | some cols => (cols.filter (fun col => fuzzyMatch word col)).map
        (fun col => ⟨col, [], .SuggestColumn, tRef.Name⟩)
    | none => [])

/-- Go `columnSuggestionsAll`: every column of every table in the snapshot. -/
def columnSuggestionsAll (c : Completer) (word : Str) : List Suggestion :=
  c.meta.Columns.flatMap (fun p =>
    (p.2.filter (fun col => fuzzyMatch word col)).map
      (fun col => ⟨col, [], .SuggestColumn, p.1⟩))

/-- Go `columnSuggestions`: columns of the referenced tables, falling back to
all columns when the loop produced nothing. -/
def columnSuggestions (c : Completer) (ctx : SQLContext) (word : Str) : List Suggestion :=
  let s := if ctx.Tables.isEmpty then [] else refColumnSuggestions c.meta ctx.Tables word
  if s = [] then columnSuggestionsAll c word else s

/-- Go `allCompletions`: the no-context union of every category. -/
def allCompletions (c : Completer) (word : Str) : List Suggestion :=
  keywordSuggestions c word allKeywords ++ tableSuggestions c word ++
    viewSuggestions c word ++ columnSuggestionsAll c word ++
    functionSuggestions c word ++ schemaSuggestions c word ++
    datatypeSuggestions c word ++ specialSuggestions c word ++
    favoriteSuggestions c word

/-- Go `contextCompletions`: dispatch on the parsed context. -/
def contextCompletions (c : Completer) (ctx : SQLContext) (word : Str) : List Suggestion :=
  if ctx.IsBackslash then specialSuggestions c word
  else if ctx.AfterDot then
    let tableName := resolveTableName ctx.BeforeDot ctx.Tables
    match c.meta.Columns.lookup tableName with
    | some cols => (cols.filter (fun col => fuzzyMatch word col)).map
        (fun col => ⟨col, [], .SuggestColumn, tableName⟩)
    | none => []
  else if ctx.InSelect then
    keywordSuggestions c word selectKeywords ++ functionSuggestions c word ++
      tableSuggestions c word ++ columnSuggestions c ctx word
  else if ctx.InFrom || ctx.InJoin then
    keywordSuggestions c word fromKeywords ++ tableSuggestions c word ++
      viewSuggestions c word ++ schemaSuggestions c word
  else if ctx.InWhere || ctx.InHaving || ctx.InOn then
    keywordSuggestions c word whereKeywords ++ columnSuggestions c ctx word ++
      functionSuggestions c word
  else if ctx.InOrderBy || ctx.InGroupBy then
    columnSuggestions c ctx word
  else if ctx.InInsert then
    tableSuggestions c word ++ columnSuggestions c ctx word
  else if ctx.InUpdate then
    tableSuggestions c word
  else if ctx.InSet then
    columnSuggestions c ctx word
  else if ctx.InCreate || ctx.InAlter || ctx.InDrop then
    keywordSuggestions c word ddlKeywords ++ tableSuggestions c word ++
      schemaSuggestions c word ++ datatypeSuggestions c word
  else allCompletions c word

/-- Go `text[:cursorPos]` after the clamp at the top of `Complete`. -/
def textBeforeCursor (text : Str) (cursorPos : Nat) : Str :=
  let cp := if cursorPos > text.length then text.length else cursorPos
  text.take cp

/-- The `strings.LastIndex(word, ".")` truncation of `Complete`: keeps
only the part of the word after its last dot (unchanged when the word has
no dot, matching the `dotIdx >= 0` guard). -/
def afterLastDotWord (word : Str) : Str :=
  if word.contains '.' then (word.reverse.takeWhile (fun c => c ≠ '.')).reverse
  else word

/-- Go `Complete` with a natural-number cursor position (the non-panicking
domain of the Go function). -/
def Complete (c : Completer) (text : Str) (cursorPos : Nat) : List Suggestion :=
  let textBefore := textBeforeCursor text cursorPos
  let word := lastWord textBefore
  if !c.smart then allCompletions c word
  else
    let ctx := analyzeContext textBefore
    let word := if ctx.AfterDot then afterLastDotWord word else word
    contextCompletions c ctx word

/-- Go `Complete` as written in Go, where `cursorPos` is a signed `int`:
the clamp only caps positions above the length, and the slice
`text[:cursorPos]` panics when `cursorPos` is negative.  The panic is
modelled by `none`. -/
def CompleteGo (c : Completer) (text : Str) (cursorPos : Int) : Option (List Suggestion) :=
  let cp := if cursorPos > (text.length : Int) then (text.length : Int) else cursorPos
  if 0 ≤ cp then some (Complete c text cp.toNat) else none

/-- An empty metadata snapshot. -/
def emptyMeta : Metadata := ⟨[], [], [], [], [], [], [], [], []⟩

example : lastWord (str "SELECT * FROM us") = str "us" := by decide

example : lastWord (str "SELECT * FROM users WHERE ") = [] := by decide

example : fuzzyMatch (str "djmi") (str "django_migrations") = true := by decide

example : fuzzyMatch (str "xyz") (str "abc") = false := by decide

/-! ## Fuzzy matcher: correctness of the three tiers -/

/-- The greedy in-order scan of tier 3 succeeds exactly on subsequences. -/
theorem subseqStep_iff_sublist (i c : Str) : subseqStep i c = true ↔ List.Sublist i c := by
  induction c generalizing i with
  | nil =>
    cases i with
    | nil => simp [subseqStep]
    | cons a as => simp [subseqStep]
  | cons b bs ih =>
    cases i with
    | nil => simp [subseqStep, List.nil_sublist]
    | cons a as =>
      simp only [subseqStep]
      by_cases hba : b = a
      · subst hba
        rw [if_pos rfl]
        rw [ih as]
        exact (List.cons_sublist_cons).symm
      · rw [if_neg hba]
        rw [ih (a :: as)]
        constructor
        · intro h
          exact h.cons b
        · intro h
          cases h with
          | cons _ h' => exact h'
          | cons₂ h' => exact absurd rfl hba

/-- The Lean-side fact that `containsSub` decides the substring (infix) relation. -/
theorem containsSub_iff_substring (hay needle : Str) :
    containsSub hay needle = true ↔ needle <:+: hay := by
  rw [containsSub, List.any_eq_true]
  constructor
  · rintro ⟨t, ht, hp⟩
    rw [List.mem_tails] at ht
    rw [ List.isPrefixOf_iff_prefix] at hp
    exact (List.infix_iff_prefix_suffix).mpr ⟨t, hp, ht⟩
  · intro h
    obtain ⟨t, hp, ht⟩ := (List.infix_iff_prefix_suffix).mp h
    exact ⟨t, (List.mem_tails t hay).mpr ht, ( List.isPrefixOf_iff_prefix).mpr hp⟩

/-- For non-empty input the three tiers combine by disjunction. -/
theorem fuzzyMatch_eq_or (input candidate : Str) (h : input ≠ []) :
    fuzzyMatch input candidate =
      ((lowerStr input).isPrefixOf (lowerStr candidate) ||
        containsSub (lowerStr candidate) (lowerStr input) ||
        subseqStep (lowerStr input) (lowerStr candidate)) := by
  rw [fuzzyMatch, if_neg h]
  by_cases h1 : (lowerStr input).isPrefixOf (lowerStr candidate)
  · simp [h1]
  · by_cases h2 : containsSub (lowerStr candidate) (lowerStr input)
    · simp [h1, h2]
    · simp [h1, h2]

/-- The three tiers, as propositions on the lower-cased strings. -/
theorem fuzzyMatch_iff_tiers (input candidate : Str) :
    fuzzyMatch input candidate = true ↔
      (lowerStr input <+: lowerStr candidate ∨
        lowerStr input <:+: lowerStr candidate ∨
        List.Sublist (lowerStr input) (lowerStr candidate)) := by
  by_cases h : input = []
  · subst h
    have hpre : (lowerStr []) <+: lowerStr candidate := ⟨lowerStr candidate, rfl⟩
    simp only [fuzzyMatch, if_pos rfl]
    exact ⟨fun _ => Or.inl hpre, fun _ => rfl⟩
  · rw [fuzzyMatch_eq_or input candidate h]
    simp only [Bool.or_eq_true]
    rw [ List.isPrefixOf_iff_prefix, containsSub_iff_substring, subseqStep_iff_sublist]
    tauto

/-- C8: `fuzzyMatch` is case-insensitive and returns true exactly when one
of the three tiers (prefix, substring, ordered subsequence of the
lower-cased strings) holds; empty input always matches; the two concrete
examples of the spec behave as stated. -/
theorem fuzzyMatch_three_tiers :
    (∀ input candidate : Str, fuzzyMatch input candidate = true ↔
      (lowerStr input <+: lowerStr candidate ∨
        lowerStr input <:+: lowerStr candidate ∨
        List.Sublist (lowerStr input) (lowerStr candidate))) ∧
    (∀ candidate : Str, fuzzyMatch [] candidate = true) ∧
    fuzzyMatch (str "djmi") (str "django_migrations") = true ∧
    fuzzyMatch (str "xyz") (str "abc") = false :=
  ⟨fuzzyMatch_iff_tiers, fun _ => rfl, by decide, by decide⟩

/-- C10: `fuzzyMatch` returns true iff the lower-cased input is an ordered
(possibly non-contiguous) subsequence of the lower-cased candidate; the
prefix and substring tiers never change the boolean result relative to
the subsequence check alone. -/
theorem fuzzyMatch_eq_subsequence :
    (∀ input candidate : Str,
      fuzzyMatch input candidate = true ↔ List.Sublist (lowerStr input) (lowerStr candidate)) ∧
    (∀ input candidate : Str, fuzzyMatch input candidate = fuzzySubseqOnly input candidate) := by
  have key : ∀ input candidate : Str,
      fuzzyMatch input candidate = true ↔ List.Sublist (lowerStr input) (lowerStr candidate) := by
    intro input candidate
    rw [fuzzyMatch_iff_tiers]
    constructor
    · rintro (h | h | h)
      · exact h.sublist
      · exact h.sublist
      · exact h
    · intro h
      exact Or.inr (Or.inr h)
  refine ⟨key, fun input candidate => ?_⟩
  by_cases h : input = []
  · subst h
    rfl
  · have h2 : fuzzySubseqOnly input candidate = true ↔
        List.Sublist (lowerStr input) (lowerStr candidate) := by
      rw [fuzzySubseqOnly, if_neg h]
      exact subseqStep_iff_sublist _ _
    by_cases hm : fuzzyMatch input candidate = true
    · rw [hm, Eq.symm (h2.mpr ((key input candidate).mp hm))]
    · have hs : ¬ fuzzySubseqOnly input candidate = true := fun hc =>
        hm ((key input candidate).mpr (h2.mp hc))
      rw [Bool.not_eq_true] at hm hs
      rw [hm, hs]

/-! ## The backward clause scan -/

/-- The imperative backward scan equals the declarative first-hit scan. -/
theorem scanBack_eq (ctx : SQLContext) (toks : List Str) (next : Option Str) :
    scanBack ctx toks next = applyHit ctx (firstHit toks next) := by
  induction toks generalizing next with
  | nil => rfl
  | cons tok rest ih =>
    simp only [scanBack, firstHit]
    cases hc : clauseHit tok next with
    | some f => rfl
    | none => exact ih _

theorem clauseFlagsFalse_zero : clauseFlagsFalse SQLContext.zero := by
  exact ⟨rfl, rfl, rfl, rfl, rfl, rfl, rfl, rfl, rfl, rfl, rfl, rfl, rfl, rfl, rfl⟩

theorem clauseFlagsFalse_preContext (text : Str) : clauseFlagsFalse (preContext text) := by
  unfold preContext clauseFlagsFalse
  split_ifs <;>
    exact ⟨rfl, rfl, rfl, rfl, rfl, rfl, rfl, rfl, rfl, rfl, rfl, rfl, rfl, rfl, rfl⟩

theorem getFlag_applyHit (ctx : SQLContext) (h : clauseFlagsFalse ctx)
    (o : Option Clause) (f : Clause) :
    getFlag (applyHit ctx o) f = true ↔ o = some f := by
  obtain ⟨h1, h2, h3, h4, h5, h6, h7, h8, h9, h10, h11, h12, h13, h14, h15⟩ := h
  cases o with
  | none =>
    cases f <;>
      simp [applyHit, getFlag, h1, h2, h3, h4, h5, h6, h7, h8, h9, h10, h11, h12, h13, h14, h15]
  | some g =>
    cases g <;> cases f <;>
      simp [applyHit, getFlag, setFlag,
        h1, h2, h3, h4, h5, h6, h7, h8, h9, h10, h11, h12, h13, h14, h15]

theorem clauseFlagCount_applyHit (ctx : SQLContext) (h : clauseFlagsFalse ctx) :
    ∀ o : Option Clause, clauseFlagCount (applyHit ctx o) ≤ 1 := by
  obtain ⟨h1, h2, h3, h4, h5, h6, h7, h8, h9, h10, h11, h12, h13, h14, h15⟩ := h
  intro o
  cases o with
  | none =>
    simp [applyHit, clauseFlagCount,
      h1, h2, h3, h4, h5, h6, h7, h8, h9, h10, h11, h12, h13, h14, h15]
  | some g =>
    cases g <;>
      simp [applyHit, clauseFlagCount, setFlag,
        h1, h2, h3, h4, h5, h6, h7, h8, h9, h10, h11, h12, h13, h14, h15]

/-- C1: for every input whose trimmed form is non-empty and does not
start with a backslash, `analyzeContext` determines the active clause
flag by scanning the token list backward from the end, stopping at the
first clause-introducing keyword (with the `ORDER`/`GROUP`+`BY` and
join-family tie-breaks); a flag is set iff it is the first hit of that
backward scan, and when no clause keyword is found every clause flag
stays false. -/
theorem analyzeContext_backward_scan (text : Str)
    (h1 : trimSpace text ≠ [])
    (h2 : (trimSpace text).headD (Char.ofNat 0) ≠ '\\') :
    ∀ f : Clause, getFlag (analyzeContext text) f = true ↔
      firstHit (tokenize (trimSpace text)).reverse none = some f := by
  intro f
  unfold analyzeContext
  rw [if_neg h1, if_neg h2, scanBack_eq]
  exact getFlag_applyHit _ (clauseFlagsFalse_preContext _) _ f

theorem analyzeContext_backward_scan_witness :
    (trimSpace (str "select * from t where ") ≠ [] ∧
      (trimSpace (str "select * from t where ")).headD (Char.ofNat 0) ≠ '\\') ∧
    (getFlag (analyzeContext (str "select * from t where ")) .whr = true ↔
      firstHit (tokenize (trimSpace (str "select * from t where "))).reverse none = some .whr) :=
  ⟨⟨by decide, by decide⟩,
    analyzeContext_backward_scan (str "select * from t where ") (by decide) (by decide) .whr⟩

/-- C9: for every input text, at most one of the fifteen clause flags of
the context returned by `analyzeContext` is true. -/
theorem analyzeContext_at_most_one_clause_flag (text : Str) :
    clauseFlagCount (analyzeContext text) ≤ 1 := by
  simp only [analyzeContext]
  split_ifs with h1 h2
  · decide
  · decide
  · rw [scanBack_eq]
    exact clauseFlagCount_applyHit _ (clauseFlagsFalse_preContext _) _

/-- C2: on `"SELECT * FROM users u JOIN orders o ON u.id = o.user_id"`,
`analyzeContext` extracts exactly the two table refs
`{users, u}` and `{orders, o}`, in that order, and that list is what
`extractTableRefs` collects from the token stream. -/
theorem analyzeContext_example_table_refs :
    (analyzeContext (str "SELECT * FROM users u JOIN orders o ON u.id = o.user_id")).Tables =
      [⟨str "users", str "u"⟩, ⟨str "orders", str "o"⟩] ∧
    (analyzeContext (str "SELECT * FROM users u JOIN orders o ON u.id = o.user_id")).Tables =
      extractTableRefs
        (tokenize (trimSpace (str "SELECT * FROM users u JOIN orders o ON u.id = o.user_id"))) :=
  ⟨by decide, by decide⟩

/-! ## Dot resolution (C3) -/

/-- A successful association-list lookup names an entry of the list. -/
theorem lookup_mem {β : Type} (k : Str) (l : List (Str × β)) (b : β)
    (h : l.lookup k = some b) : (k, b) ∈ l := by
  induction l with
  | nil => simp [List.lookup] at h
  | cons p rest ih =>
    obtain ⟨k', b'⟩ := p
    by_cases hk : k = k'
    · subst hk
      simp [List.lookup_cons] at h
      subst h
      exact List.mem_cons_self _ _
    · have hb : (k == k') = false := by simp [hk]
      rw [List.lookup_cons, hb] at h
      simp only [cond_false] at h
      exact List.mem_cons_of_mem _ (ih h)

/-- C3 counterexample: `resolveTableName` does not check all aliases
before table names.  With refs `[{b, x}, {a, b}]` and identifier `"b"`,
an aliases-first resolution would find the second ref (its alias is `b`)
and return `"a"`, but the code's single interleaved pass returns `"b"`
(the first ref's name). -/
theorem resolveTableName_not_aliases_first :
    resolveTableName (str "b") [⟨str "b", str "x"⟩, ⟨str "a", str "b"⟩] = str "b" ∧
    (List.find? (fun r => r.Alias == str "b")
        [(⟨str "b", str "x"⟩ : TableRef), ⟨str "a", str "b"⟩]).map TableRef.Name =
      some (str "a") ∧
    str "a" ≠ str "b" :=
  ⟨by decide, by decide, by decide⟩

/-- C3 (amended): dot resolution scans the refs in order, checking each
ref's alias and then its name; the first ref that matches either way
supplies the table name, and when no ref matches the raw identifier is
used as the table key, so an unresolved identifier yields an empty
column-suggestion list rather than an error. -/
theorem resolveTableName_first_match :
    (∀ (aliasName : Str) (refs : List TableRef),
      resolveTableName aliasName refs =
        ((refs.find? (fun r => r.Alias == aliasName || r.Name == aliasName)).map
          TableRef.Name).getD aliasName) ∧
    (∀ (c : Completer) (ctx : SQLContext) (word : Str),
      ctx.IsBackslash = false → ctx.AfterDot = true →
      c.meta.Columns.lookup (resolveTableName ctx.BeforeDot ctx.Tables) = none →
      contextCompletions c ctx word = []) := by
  constructor
  · intro aliasName refs
    induction refs with
    | nil => rfl
    | cons ref rest ih =>
      by_cases ha : ref.Alias = aliasName
      · rw [resolveTableName, if_pos ha]
        rw [List.find?_cons_of_pos _ (by simp [ha])]
        rfl
      · by_cases hn : ref.Name = aliasName
        · rw [resolveTableName, if_neg ha, if_pos hn]
          rw [List.find?_cons_of_pos _ (by simp [hn])]
          rfl
        · rw [resolveTableName, if_neg ha, if_neg hn]
          rw [List.find?_cons_of_neg _ (by simp [ha, hn])]
          exact ih
  · intro c ctx word hb hd hl
    simp only [contextCompletions, hb, hd, hl]
    rfl

theorem resolveTableName_first_match_witness :
    resolveTableName (str "z") [⟨str "t", str "u"⟩] =
      ((List.find? (fun r => r.Alias == str "z" || r.Name == str "z")
          [(⟨str "t", str "u"⟩ : TableRef)]).map TableRef.Name).getD (str "z") ∧
    contextCompletions ⟨emptyMeta, true, str "auto"⟩
      { SQLContext.zero with AfterDot := true, BeforeDot := str "z" } [] = [] :=
  ⟨resolveTableName_first_match.1 _ _,
    resolveTableName_first_match.2 _ _ _ rfl rfl (by decide)⟩

/-! ## Column suggestions in SELECT context (C6) -/

/-- Every suggestion produced by the referenced-tables loop is a column
of a referenced table (looked up under the ref's name). -/
theorem refColumnSuggestions_sound (md : Metadata) (refs : List TableRef) (word : Str) :
    ∀ s ∈ refColumnSuggestions md refs word,
      ∃ ref ∈ refs, ∃ cols, md.Columns.lookup ref.Name = some cols ∧
        s.Text ∈ cols ∧ s.Description = ref.Name ∧ s.type_ = .SuggestColumn := by
  intro s hs
  rw [refColumnSuggestions, List.mem_flatMap] at hs
  obtain ⟨tRef, htRef, hs⟩ := hs
  cases hlk : md.Columns.lookup tRef.Name with
  | none => rw [hlk] at hs; simp at hs
  | some cols =>
    rw [hlk] at hs
    simp only [List.mem_map, List.mem_filter] at hs
    obtain ⟨col, ⟨hcol, _⟩, rfl⟩ := hs
    exact ⟨tRef, htRef, cols, hlk, hcol, rfl, rfl⟩

theorem refColumnSuggestions_nil (md : Metadata) (word : Str) :
    refColumnSuggestions md [] word = [] := rfl

/-- Every suggestion in the all-columns fallback has column type. -/
theorem columnSuggestionsAll_type (c : Completer) (word : Str) :
    ∀ s ∈ columnSuggestionsAll c word, s.type_ = .SuggestColumn := by
  intro s hs
  rw [columnSuggestionsAll, List.mem_flatMap] at hs
  obtain ⟨p, _, hs⟩ := hs
  simp only [List.mem_map, List.mem_filter] at hs
  obtain ⟨col, _, rfl⟩ := hs
  rfl

theorem columnSuggestions_type (c : Completer) (ctx : SQLContext) (word : Str) :
    ∀ s ∈ columnSuggestions c ctx word, s.type_ = .SuggestColumn := by
  intro s hs
  rw [columnSuggestions] at hs
  by_cases he : ctx.Tables.isEmpty
  · rw [if_pos he] at hs
    simp only [if_pos rfl] at hs
    exact columnSuggestionsAll_type c word s hs
  · rw [if_neg he] at hs
    by_cases hr : refColumnSuggestions c.meta ctx.Tables word = []
    · rw [if_pos hr] at hs
      exact columnSuggestionsAll_type c word s hs
    · rw [if_neg hr] at hs
      obtain ⟨ref, _, cols, _, _, _, ht⟩ :=
        refColumnSuggestions_sound c.meta ctx.Tables word s hs
      exact ht

/-- A mapped list whose elements all fail the filter predicate filters
to nil. -/
theorem filter_map_eq_nil {α β : Type} (l : List α) (f : α → β) (p : β → Bool)
    (h : ∀ a, p (f a) = false) : (l.map f).filter p = [] := by
  rw [List.filter_eq_nil_iff]
  intro b hb
  obtain ⟨a, _, rfl⟩ := List.mem_map.mp hb
  simp [h a]
theorem filter_col_keywordSuggestions (c : Completer) (word : Str) (kws : List Str) :
    (keywordSuggestions c word kws).filter
      (fun s => s.type_ == SuggestionType.SuggestColumn) = [] :=
  filter_map_eq_nil _ _ _ (fun _ => rfl)

theorem filter_col_functionSuggestions (c : Completer) (word : Str) :
    (functionSuggestions c word).filter
      (fun s => s.type_ == SuggestionType.SuggestColumn) = [] :=
  filter_map_eq_nil _ _ _ (fun _ => rfl)

theorem filter_col_tableSuggestions (c : Completer) (word : Str) :
    (tableSuggestions c word).filter
      (fun s => s.type_ == SuggestionType.SuggestColumn) = [] :=
  filter_map_eq_nil _ _ _ (fun _ => rfl)

/-- C6 counterexample: on `"insert into t select "` the context is
SELECT with table `t` referenced, yet the suggestions include column
`c1` of the unreferenced table `u`: the fallback to all columns fires
whenever the referenced tables contribute no matching column, not only
when no tables are referenced. -/
theorem select_columns_fallback_counterexample :
    (analyzeContext (str "insert into t select ")).InSelect = true ∧
    (analyzeContext (str "insert into t select ")).Tables = [⟨str "t", []⟩] ∧
    (⟨str "c1", [], .SuggestColumn, str "u"⟩ : Suggestion) ∈
      Complete ⟨{ emptyMeta with Columns := [(str "u", [str "c1"])] }, true, str "auto"⟩
        (str "insert into t select ") 21 ∧
    (str "u") ∉ ((analyzeContext (str "insert into t select ")).Tables.map TableRef.Name) :=
  ⟨by decide, by decide, by decide, by decide⟩

/-- C6 (amended): in SELECT context with smart mode the column-typed
suggestions are exactly `columnSuggestions`; these are drawn from the
columns of the referenced tables whenever that loop yields at least one
match, and otherwise — when no tables are referenced, or the referenced
tables are unknown or yield no fuzzy match — fall back to the columns of
all tables in the snapshot. -/
theorem select_columns_referenced_or_fallback (c : Completer) (ctx : SQLContext) (word : Str) :
    (ctx.InSelect = true → ctx.IsBackslash = false → ctx.AfterDot = false →
      (contextCompletions c ctx word).filter
          (fun s => s.type_ == SuggestionType.SuggestColumn) =
        columnSuggestions c ctx word) ∧
    (refColumnSuggestions c.meta ctx.Tables word ≠ [] →
      columnSuggestions c ctx word = refColumnSuggestions c.meta ctx.Tables word ∧
      ∀ s ∈ columnSuggestions c ctx word,
        ∃ ref ∈ ctx.Tables, ∃ cols, c.meta.Columns.lookup ref.Name = some cols ∧
          s.Text ∈ cols ∧ s.Description = ref.Name) ∧
    (refColumnSuggestions c.meta ctx.Tables word = [] →
      columnSuggestions c ctx word = columnSuggestionsAll c word) := by
  have hcolsEq : refColumnSuggestions c.meta ctx.Tables word ≠ [] →
      columnSuggestions c ctx word = refColumnSuggestions c.meta ctx.Tables word := by
    intro hr
    rw [columnSuggestions]
    have hne : ¬ ctx.Tables.isEmpty = true := by
      intro he
      rw [List.isEmpty_iff] at he
      rw [he, refColumnSuggestions_nil] at hr
      exact hr rfl
    rw [if_neg hne, if_neg hr]
  refine ⟨?_, fun hr => ⟨hcolsEq hr, ?_⟩, ?_⟩
  · intro hsel hb hd
    simp only [contextCompletions, hb, hd, hsel, Bool.false_eq_true, if_false, if_true]
    rw [List.filter_append, List.filter_append, List.filter_append]
    rw [filter_col_keywordSuggestions, filter_col_functionSuggestions,
      filter_col_tableSuggestions]
    rw [List.filter_eq_self.mpr (fun s hs => by
      rw [columnSuggestions_type c ctx word s hs]
      rfl)]
    simp
  · intro s hs
    rw [hcolsEq hr] at hs
    obtain ⟨ref, href, cols, hlk, htext, hdesc, _⟩ :=
      refColumnSuggestions_sound c.meta ctx.Tables word s hs
    exact ⟨ref, href, cols, hlk, htext, hdesc⟩
  · intro hr
    rw [columnSuggestions]
    by_cases he : ctx.Tables.isEmpty
    · rw [if_pos he, if_pos rfl]
    · rw [if_neg he, if_pos hr]

theorem select_columns_referenced_or_fallback_witness :
    ((contextCompletions ⟨{ emptyMeta with Columns := [(str "u", [str "c1"])] }, true, str "auto"⟩
        (analyzeContext (str "insert into t select ")) []).filter
        (fun s => s.type_ == SuggestionType.SuggestColumn) =
      columnSuggestions ⟨{ emptyMeta with Columns := [(str "u", [str "c1"])] }, true, str "auto"⟩
        (analyzeContext (str "insert into t select ")) []) ∧
    columnSuggestions ⟨{ emptyMeta with Columns := [(str "u", [str "c1"])] }, true, str "auto"⟩
        (analyzeContext (str "insert into t select ")) [] =
      columnSuggestionsAll
        ⟨{ emptyMeta with Columns := [(str "u", [str "c1"])] }, true, str "auto"⟩ [] :=
  ⟨(select_columns_referenced_or_fallback _ _ _).1 (by decide) (by decide) (by decide),
    (select_columns_referenced_or_fallback _ _ _).2.2 (by decide)⟩

/-! ## Non-smart completion is the union of the categories (C5) -/

/-- C5 counterexample: the databases category of the snapshot is never
suggested.  With smart mode off, a snapshot whose only entry is database
`postgres` produces no suggestion at all for the word `postgres`, even
though that word fuzzy-matches the database name. -/
theorem allCompletions_no_databases_counterexample :
    Complete ⟨{ emptyMeta with Databases := [str "postgres"] }, false, str "auto"⟩
        (str "postgres") 8 = [] ∧
    fuzzyMatch (str "postgres") (str "postgres") = true :=
  ⟨by decide, by decide⟩

/-- C5 (amended): with smart mode disabled, `Complete` returns the union
of the candidate categories keywords, tables, views, columns, functions,
schemas, datatypes, specials and favorites — databases are not among
them — each filtered only by fuzzy-matching the current word, with no
context filtering: a suggestion is in the result iff it arises from a
fuzzy-matching entry of one of those categories. -/
theorem allCompletions_union (md : Metadata) (casing : Str) :
    (∀ (text : Str) (cursorPos : Nat),
      Complete ⟨md, false, casing⟩ text cursorPos =
        allCompletions ⟨md, false, casing⟩ (lastWord (textBeforeCursor text cursorPos))) ∧
    (∀ (word : Str) (s : Suggestion),
      s ∈ allCompletions ⟨md, false, casing⟩ word ↔
        ((∃ kw ∈ allKeywords, fuzzyMatch word kw = true ∧
            s = ⟨caseKeyword ⟨md, false, casing⟩ kw word, [], .SuggestKeyword, str "keyword"⟩) ∨
         (∃ t ∈ md.Tables, fuzzyMatch word t = true ∧
            s = ⟨t, [], .SuggestTable, str "table"⟩) ∨
         (∃ v ∈ md.Views, fuzzyMatch word v = true ∧
            s = ⟨v, [], .SuggestView, str "view"⟩) ∨
         (∃ p ∈ md.Columns, ∃ col ∈ p.2, fuzzyMatch word col = true ∧
            s = ⟨col, [], .SuggestColumn, p.1⟩) ∨
         (∃ f ∈ md.Functions, fuzzyMatch word f = true ∧
            s = ⟨f ++ str "()", [], .SuggestFunction, str "function"⟩) ∨
         (∃ sc ∈ md.Schemas, fuzzyMatch word sc = true ∧
            s = ⟨sc, [], .SuggestSchema, str "schema"⟩) ∨
         (∃ dt ∈ md.Datatypes, fuzzyMatch word dt = true ∧
            s = ⟨dt, [], .SuggestDatatype, str "type"⟩) ∨
         (∃ sp ∈ md.Specials, fuzzyMatch word sp.Name = true ∧
            s = ⟨sp.Name, [], .SuggestSpecial, sp.Description⟩) ∨
         (∃ fv ∈ md.Favorites, fuzzyMatch word fv = true ∧
            s = ⟨fv, [], .SuggestFavorite, []⟩))) := by
  constructor
  · intro text cursorPos
    rfl
  · intro word s
    simp only [allCompletions, keywordSuggestions, tableSuggestions, viewSuggestions,
      columnSuggestionsAll, functionSuggestions, schemaSuggestions, datatypeSuggestions,
      specialSuggestions, favoriteSuggestions, List.mem_append, List.mem_map,
      List.mem_filter, List.mem_flatMap]
    constructor
    · rintro ((((((((⟨x, ⟨hx, hm⟩, rfl⟩ | ⟨x, ⟨hx, hm⟩, rfl⟩) | ⟨x, ⟨hx, hm⟩, rfl⟩) |
        ⟨p, hp, x, ⟨hx, hm⟩, rfl⟩) | ⟨x, ⟨hx, hm⟩, rfl⟩) | ⟨x, ⟨hx, hm⟩, rfl⟩) |
        ⟨x, ⟨hx, hm⟩, rfl⟩) | ⟨x, ⟨hx, hm⟩, rfl⟩) | ⟨x, ⟨hx, hm⟩, rfl⟩)
      · exact Or.inl ⟨x, hx, hm, rfl⟩
      · exact Or.inr (Or.inl ⟨x, hx, hm, rfl⟩)
      · exact Or.inr (Or.inr (Or.inl ⟨x, hx, hm, rfl⟩))
      · exact Or.inr (Or.inr (Or.inr (Or.inl ⟨p, hp, x, hx, hm, rfl⟩)))
      · exact Or.inr (Or.inr (Or.inr (Or.inr (Or.inl ⟨x, hx, hm, rfl⟩))))
      · exact Or.inr (Or.inr (Or.inr (Or.inr (Or.inr (Or.inl ⟨x, hx, hm, rfl⟩)))))
      · exact Or.inr (Or.inr (Or.inr (Or.inr (Or.inr (Or.inr (Or.inl ⟨x, hx, hm, rfl⟩))))))
      · exact Or.inr (Or.inr (Or.inr (Or.inr (Or.inr (Or.inr (Or.inr
          (Or.inl ⟨x, hx, hm, rfl⟩)))))))
      · exact Or.inr (Or.inr (Or.inr (Or.inr (Or.inr (Or.inr (Or.inr
          (Or.inr ⟨x, hx, hm, rfl⟩)))))))
    · rintro (⟨x, hx, hm, rfl⟩ | ⟨x, hx, hm, rfl⟩ | ⟨x, hx, hm, rfl⟩ |
        ⟨p, hp, x, hx, hm, rfl⟩ | ⟨x, hx, hm, rfl⟩ | ⟨x, hx, hm, rfl⟩ |
        ⟨x, hx, hm, rfl⟩ | ⟨x, hx, hm, rfl⟩ | ⟨x, hx, hm, rfl⟩)
      · exact Or.inl (Or.inl (Or.inl (Or.inl (Or.inl (Or.inl (Or.inl (Or.inl
          ⟨x, ⟨hx, hm⟩, rfl⟩)))))))
      · exact Or.inl (Or.inl (Or.inl (Or.inl (Or.inl (Or.inl (Or.inl (Or.inr
          ⟨x, ⟨hx, hm⟩, rfl⟩)))))))
      · exact Or.inl (Or.inl (Or.inl (Or.inl (Or.inl (Or.inl (Or.inr
          ⟨x, ⟨hx, hm⟩, rfl⟩))))))
      · exact Or.inl (Or.inl (Or.inl (Or.inl (Or.inl (Or.inr ⟨p, hp, x, ⟨hx, hm⟩, rfl⟩)))))
      · exact Or.inl (Or.inl (Or.inl (Or.inl (Or.inr ⟨x, ⟨hx, hm⟩, rfl⟩))))
      · exact Or.inl (Or.inl (Or.inl (Or.inr ⟨x, ⟨hx, hm⟩, rfl⟩)))
      · exact Or.inl (Or.inl (Or.inr ⟨x, ⟨hx, hm⟩, rfl⟩))
      · exact Or.inl (Or.inr ⟨x, ⟨hx, hm⟩, rfl⟩)
      · exact Or.inr ⟨x, ⟨hx, hm⟩, rfl⟩

/-! ## Smart completions versus the non-smart union (C4) -/

theorem keywordSuggestions_mono (c : Completer) (word : Str) (kws kws' : List Str)
    (hsub : ∀ k ∈ kws, k ∈ kws') :
    ∀ s ∈ keywordSuggestions c word kws, s ∈ keywordSuggestions c word kws' := by
  intro s hs
  simp only [keywordSuggestions, List.mem_map, List.mem_filter] at hs ⊢
  obtain ⟨kw, ⟨hk, hm⟩, rfl⟩ := hs
  exact ⟨kw, ⟨hsub kw hk, hm⟩, rfl⟩

theorem mem_all_of_keyword (c : Completer) (word : Str) (s : Suggestion)
    (h : s ∈ keywordSuggestions c word allKeywords) : s ∈ allCompletions c word := by
  rw [allCompletions]
  simp only [List.mem_append]
  tauto

theorem mem_all_of_table (c : Completer) (word : Str) (s : Suggestion)
    (h : s ∈ tableSuggestions c word) : s ∈ allCompletions c word := by
  rw [allCompletions]
  simp only [List.mem_append]
  tauto

theorem mem_all_of_view (c : Completer) (word : Str) (s : Suggestion)
    (h : s ∈ viewSuggestions c word) : s ∈ allCompletions c word := by
  rw [allCompletions]
  simp only [List.mem_append]
  tauto

theorem mem_all_of_columnAll (c : Completer) (word : Str) (s : Suggestion)
    (h : s ∈ columnSuggestionsAll c word) : s ∈ allCompletions c word := by
  rw [allCompletions]
  simp only [List.mem_append]
  tauto

theorem mem_all_of_function (c : Completer) (word : Str) (s : Suggestion)
    (h : s ∈ functionSuggestions c word) : s ∈ allCompletions c word := by
  rw [allCompletions]
  simp only [List.mem_append]
  tauto

theorem mem_all_of_schema (c : Completer) (word : Str) (s : Suggestion)
    (h : s ∈ schemaSuggestions c word) : s ∈ allCompletions c word := by
  rw [allCompletions]
  simp only [List.mem_append]
  tauto

theorem mem_all_of_datatype (c : Completer) (word : Str) (s : Suggestion)
    (h : s ∈ datatypeSuggestions c word) : s ∈ allCompletions c word := by
  rw [allCompletions]
  simp only [List.mem_append]
  tauto

theorem mem_all_of_special (c : Completer) (word : Str) (s : Suggestion)
    (h : s ∈ specialSuggestions c word) : s ∈ allCompletions c word := by
  rw [allCompletions]
  simp only [List.mem_append]
  tauto

/-- The referenced-table column loop only produces entries of the
all-columns list. -/
theorem refColumnSuggestions_subset_all (c : Completer) (refs : List TableRef) (word : Str) :
    ∀ s ∈ refColumnSuggestions c.meta refs word, s ∈ columnSuggestionsAll c word := by
  intro s hs
  rw [refColumnSuggestions, List.mem_flatMap] at hs
  obtain ⟨tRef, _, hs⟩ := hs
  cases hlk : c.meta.Columns.lookup tRef.Name with
  | none => rw [hlk] at hs; simp at hs
  | some cols =>
    rw [hlk] at hs
    simp only [List.mem_map, List.mem_filter] at hs
    obtain ⟨col, ⟨hcol, hm⟩, rfl⟩ := hs
    rw [columnSuggestionsAll, List.mem_flatMap]
    refine ⟨(tRef.Name, cols), lookup_mem _ _ _ hlk, ?_⟩
    simp only [List.mem_map, List.mem_filter]
    exact ⟨col, ⟨hcol, hm⟩, rfl⟩

theorem columnSuggestions_subset_all (c : Completer) (ctx : SQLContext) (word : Str) :
    ∀ s ∈ columnSuggestions c ctx word, s ∈ columnSuggestionsAll c word := by
  intro s hs
  rw [columnSuggestions] at hs
  by_cases he : ctx.Tables.isEmpty
  · rw [if_pos he, if_pos rfl] at hs
    exact hs
  · rw [if_neg he] at hs
    by_cases hr : refColumnSuggestions c.meta ctx.Tables word = []
    · rw [if_pos hr] at hs
      exact hs
    · rw [if_neg hr] at hs
      exact refColumnSuggestions_subset_all c ctx.Tables word s hs

theorem selectKeywords_subset : ∀ k ∈ selectKeywords, k ∈ allKeywords := by decide

theorem fromKeywords_subset : ∀ k ∈ fromKeywords, k ∈ allKeywords := by decide

theorem ddlKeywords_subset : ∀ k ∈ ddlKeywords, k ∈ allKeywords := by decide

theorem whereKeywords_subset :
    ∀ k ∈ whereKeywords, k ∈ allKeywords ∨ k ∈ [str "ANY", str "SOME"] := by decide

/-- Keyword suggestions from a sublist of `allKeywords` land in the
non-smart union. -/
theorem mem_all_of_keyword_sub (c : Completer) (word : Str) (kws : List Str)
    (hsub : ∀ k ∈ kws, k ∈ allKeywords) (s : Suggestion)
    (h : s ∈ keywordSuggestions c word kws) : s ∈ allCompletions c word :=
  mem_all_of_keyword c word s (keywordSuggestions_mono c word kws allKeywords hsub s h)

/-- Every smart context-scoped suggestion (outside dot contexts) is in
the non-smart union, except keyword suggestions for `ANY`/`SOME`. -/
theorem contextCompletions_subset (c : Completer) (ctx : SQLContext) (word : Str)
    (hdot : ctx.AfterDot = false) :
    ∀ s ∈ contextCompletions c ctx word,
      s ∈ allCompletions c word ∨
        s ∈ keywordSuggestions c word [str "ANY", str "SOME"] := by
  intro s hs
  rw [contextCompletions] at hs
  by_cases h1 : ctx.IsBackslash = true
  · rw [if_pos h1] at hs
    exact Or.inl (mem_all_of_special c word s hs)
  · rw [if_neg h1, if_neg (by simp [hdot])] at hs
    by_cases h2 : ctx.InSelect = true
    · rw [if_pos h2] at hs
      rcases List.mem_append.mp hs with hs | hs
      rcases List.mem_append.mp hs with hs | hs
      rcases List.mem_append.mp hs with hs | hs
      · exact Or.inl (mem_all_of_keyword_sub c word _ selectKeywords_subset s hs)
      · exact Or.inl (mem_all_of_function c word s hs)
      · exact Or.inl (mem_all_of_table c word s hs)
      · exact Or.inl (mem_all_of_columnAll c word s (columnSuggestions_subset_all c ctx word s hs))
    · rw [if_neg h2] at hs
      by_cases h3 : (ctx.InFrom || ctx.InJoin) = true
      · rw [if_pos h3] at hs
        rcases List.mem_append.mp hs with hs | hs
        rcases List.mem_append.mp hs with hs | hs
        rcases List.mem_append.mp hs with hs | hs
        · exact Or.inl (mem_all_of_keyword_sub c word _ fromKeywords_subset s hs)
        · exact Or.inl (mem_all_of_table c word s hs)
        · exact Or.inl (mem_all_of_view c word s hs)
        · exact Or.inl (mem_all_of_schema c word s hs)
      · rw [if_neg h3] at hs
        by_cases h4 : (ctx.InWhere || ctx.InHaving || ctx.InOn) = true
        · rw [if_pos h4] at hs
          rcases List.mem_append.mp hs with hs | hs
          rcases List.mem_append.mp hs with hs | hs
          · simp only [keywordSuggestions, List.mem_map, List.mem_filter] at hs
            obtain ⟨kw, ⟨hk, hm⟩, rfl⟩ := hs
            rcases whereKeywords_subset kw hk with hin | hin
            · refine Or.inl (mem_all_of_keyword c word _ ?_)
              simp only [keywordSuggestions, List.mem_map, List.mem_filter]
              exact ⟨kw, ⟨hin, hm⟩, rfl⟩
            · refine Or.inr ?_
              simp only [keywordSuggestions, List.mem_map, List.mem_filter]
              exact ⟨kw, ⟨hin, hm⟩, rfl⟩
          · exact Or.inl (mem_all_of_columnAll c word s
              (columnSuggestions_subset_all c ctx word s hs))
          · exact Or.inl (mem_all_of_function c word s hs)
        · rw [if_neg h4] at hs
          by_cases h5 : (ctx.InOrderBy || ctx.InGroupBy) = true
          · rw [if_pos h5] at hs
            exact Or.inl (mem_all_of_columnAll c word s
              (columnSuggestions_subset_all c ctx word s hs))
          · rw [if_neg h5] at hs
            by_cases h6 : ctx.InInsert = true
            · rw [if_pos h6] at hs
              rcases List.mem_append.mp hs with hs | hs
              · exact Or.inl (mem_all_of_table c word s hs)
              · exact Or.inl (mem_all_of_columnAll c word s
                  (columnSuggestions_subset_all c ctx word s hs))
            · rw [if_neg h6] at hs
              by_cases h7 : ctx.InUpdate = true
              · rw [if_pos h7] at hs
                exact Or.inl (mem_all_of_table c word s hs)
              · rw [if_neg h7] at hs
                by_cases h8 : ctx.InSet = true
                · rw [if_pos h8] at hs
                  exact Or.inl (mem_all_of_columnAll c word s
                    (columnSuggestions_subset_all c ctx word s hs))
                · rw [if_neg h8] at hs
                  by_cases h9 : (ctx.InCreate || ctx.InAlter || ctx.InDrop) = true
                  · rw [if_pos h9] at hs
                    rcases List.mem_append.mp hs with hs | hs
                    rcases List.mem_append.mp hs with hs | hs
                    rcases List.mem_append.mp hs with hs | hs
                    · exact Or.inl (mem_all_of_keyword_sub c word _ ddlKeywords_subset s hs)
                    · exact Or.inl (mem_all_of_table c word s hs)
                    · exact Or.inl (mem_all_of_schema c word s hs)
                    · exact Or.inl (mem_all_of_datatype c word s hs)
                  · rw [if_neg h9] at hs
                    exact Or.inl hs

/-- The helper `setFlag` does not touch `AfterDot`. -/
theorem applyHit_AfterDot (ctx : SQLContext) (o : Option Clause) :
    (applyHit ctx o).AfterDot = ctx.AfterDot := by
  cases o with
  | none => rfl
  | some f => cases f <;> rfl

/-- Go `analyzeContext` sets `AfterDot` only when the trimmed text ends in
a dot. -/
theorem analyzeContext_afterDot (t : Str) (h : (trimSpace t).getLast? ≠ some '.') :
    (analyzeContext t).AfterDot = false := by
  simp only [analyzeContext]
  split_ifs with h1 h2
  · rfl
  · rfl
  · rw [scanBack_eq, applyHit_AfterDot]
    simp only [preContext]
    rw [if_neg h]
    rfl

/-- C4 counterexample: the non-smart suggestion set is not always a
superset of the smart one.  (1) In WHERE context the smart path offers
the keyword `any`, which is absent from `allKeywords` and hence from the
non-smart union.  (2) After a trailing dot the smart path filters with
the word after the dot and offers column `id`, while the non-smart path
filters every category with the full word `users.`, which matches
nothing. -/
theorem smart_not_subset_counterexample :
    ((⟨str "any", [], .SuggestKeyword, str "keyword"⟩ : Suggestion) ∈
        Complete ⟨emptyMeta, true, str "auto"⟩ (str "select * from t where an") 24 ∧
      (⟨str "any", [], .SuggestKeyword, str "keyword"⟩ : Suggestion) ∉
        Complete ⟨emptyMeta, false, str "auto"⟩ (str "select * from t where an") 24) ∧
    ((⟨str "id", [], .SuggestColumn, str "users"⟩ : Suggestion) ∈
        Complete ⟨{ emptyMeta with Columns := [(str "users", [str "id"])] }, true, str "auto"⟩
          (str "SELECT users.") 13 ∧
      (⟨str "id", [], .SuggestColumn, str "users"⟩ : Suggestion) ∉
        Complete ⟨{ emptyMeta with Columns := [(str "users", [str "id"])] }, false, str "auto"⟩
          (str "SELECT users.") 13) :=
  ⟨⟨by decide, by decide⟩, by decide, by decide⟩

/-- C4 (amended): provided the text before the cursor does not end
(after trimming) with a dot, every suggestion returned by `Complete`
with smart mode enabled is also returned with smart mode disabled,
except keyword suggestions for `ANY` and `SOME` (offered in
WHERE/HAVING/ON context but absent from the global keyword list). -/
theorem smart_subset_non_smart (md : Metadata) (casing : Str) (text : Str) (cursorPos : Nat)
    (hdot : (trimSpace (textBeforeCursor text cursorPos)).getLast? ≠ some '.') :
    ∀ s ∈ Complete ⟨md, true, casing⟩ text cursorPos,
      s ∈ Complete ⟨md, false, casing⟩ text cursorPos ∨
        s ∈ keywordSuggestions ⟨md, true, casing⟩
          (lastWord (textBeforeCursor text cursorPos)) [str "ANY", str "SOME"] := by
  intro s hs
  have hctx : (analyzeContext (textBeforeCursor text cursorPos)).AfterDot = false :=
    analyzeContext_afterDot _ hdot
  have hs' : s ∈ contextCompletions ⟨md, true, casing⟩
      (analyzeContext (textBeforeCursor text cursorPos))
      (lastWord (textBeforeCursor text cursorPos)) := by
    have heq : Complete ⟨md, true, casing⟩ text cursorPos =
        contextCompletions ⟨md, true, casing⟩
          (analyzeContext (textBeforeCursor text cursorPos))
          (if (analyzeContext (textBeforeCursor text cursorPos)).AfterDot then
            afterLastDotWord (lastWord (textBeforeCursor text cursorPos))
          else lastWord (textBeforeCursor text cursorPos)) := rfl
    rw [heq, hctx] at hs
    simpa using hs
  rcases contextCompletions_subset _ _ _ hctx s hs' with h | h
  · exact Or.inl h
  · exact Or.inr h

theorem smart_subset_non_smart_witness :
    ((trimSpace (textBeforeCursor (str "select * from t where ") 22)).getLast? ≠ some '.' ∧
      (⟨str "AND", [], .SuggestKeyword, str "keyword"⟩ : Suggestion) ∈
        Complete ⟨emptyMeta, true, str "auto"⟩ (str "select * from t where ") 22) ∧
    ((⟨str "AND", [], .SuggestKeyword, str "keyword"⟩ : Suggestion) ∈
        Complete ⟨emptyMeta, false, str "auto"⟩ (str "select * from t where ") 22 ∨
      (⟨str "AND", [], .SuggestKeyword, str "keyword"⟩ : Suggestion) ∈
        keywordSuggestions ⟨emptyMeta, true, str "auto"⟩
          (lastWord (textBeforeCursor (str "select * from t where ") 22))
          [str "ANY", str "SOME"]) :=
  ⟨⟨by decide, by decide⟩,
    smart_subset_non_smart emptyMeta (str "auto") (str "select * from t where ") 22
      (by decide) _ (by decide)⟩

/-! ## Totality and cursor clamping (C7) -/

theorem textBeforeCursor_clamp (text : Str) (n : Nat) (h : text.length ≤ n) :
    textBeforeCursor text n = textBeforeCursor text text.length := by
  unfold textBeforeCursor
  by_cases hn : n > text.length
  · rw [if_pos hn, if_neg (lt_irrefl _)]
  · have he : n = text.length := le_antisymm (not_lt.mp hn) h
    rw [he]

theorem Complete_ge_length (c : Completer) (text : Str) (n : Nat) (h : text.length ≤ n) :
    Complete c text n = Complete c text text.length := by
  simp only [Complete]
  rw [textBeforeCursor_clamp text n h]

/-- C7 counterexample: `Complete` does not totalize over every integer
cursor position: the clamp at its top only caps positions above the
text length, so the slice `text[:cursorPos]` panics for a negative
position. -/
theorem complete_negative_cursor_counterexample :
    CompleteGo ⟨emptyMeta, true, str "auto"⟩ (str "SELECT") (-1) = none := by decide

/-- C7 (amended): for every text and every non-negative cursor position,
`Complete` returns a (possibly empty) suggestion list — malformed,
empty, or dangling-quote input included — and a cursor position beyond
the text length is treated exactly as the text length. -/
theorem complete_total_and_clamped (c : Completer) (text : Str) (cursorPos : Int)
    (h : 0 ≤ cursorPos) :
    CompleteGo c text cursorPos = some (Complete c text cursorPos.toNat) ∧
    (cursorPos > (text.length : Int) →
      CompleteGo c text cursorPos = CompleteGo c text (text.length : Int)) := by
  constructor
  · simp only [CompleteGo]
    by_cases hgt : cursorPos > (text.length : Int)
    · rw [if_pos hgt, if_pos (Int.natCast_nonneg _)]
      have h1 : ((text.length : Int)).toNat = text.length := by omega
      have h2 : text.length ≤ cursorPos.toNat := by omega
      rw [h1, Complete_ge_length c text cursorPos.toNat h2]
    · rw [if_neg hgt, if_pos h]
  · intro hgt
    simp only [CompleteGo]
    rw [if_pos hgt, if_neg (lt_irrefl _)]

theorem complete_total_and_clamped_witness :
    (0 ≤ (30 : Int)) ∧
    (CompleteGo ⟨emptyMeta, true, str "auto"⟩ (str "select") 30 =
        some (Complete ⟨emptyMeta, true, str "auto"⟩ (str "select") (Int.toNat 30)) ∧
      ((30 : Int) > (((str "select").length : Nat) : Int) →
        CompleteGo ⟨emptyMeta, true, str "auto"⟩ (str "select") 30 =
          CompleteGo ⟨emptyMeta, true, str "auto"⟩ (str "select")
            (((str "select").length : Nat) : Int))) :=
  ⟨by decide, complete_total_and_clamped _ _ 30 (by decide)⟩

end GocliCompletion
